import Mathlib

/-
Verification of the retrieval and ranking engine of the localization-api
repository (src/database/vector_store.py, class TranslationMemory).

Embedding conventions:
  * A pandas DataFrame row is a `Record`; the in-memory store (self.df) is a
    `List Record` in row order.  Optional CSV cells (content_type,
    product_category, brand_notes) are `Option String`; `none` models a NaN
    cell (pandas read_csv turns empty cells into NaN).
  * Python floats are modelled by exact rationals.
  * Python str.lower is modelled on its ASCII fragment by an explicit table
    (`lowerChar`); the regex token class \w is modelled by ASCII alphanumerics
    plus the underscore character.
  * pandas nlargest(top_k, col) with the default keep policy returns the empty
    frame for top_k <= 0 and otherwise the first top_k rows of a stable
    descending sort on the column (ties keep first-seen row order); it is
    modelled by `nlargest` below via a stable insertion sort.
-/

/-- Word characters of the Python regex class \w, ASCII fragment:
alphanumeric characters and the underscore. -/
def isWordChar (c : Char) : Bool :=
  c.isAlphanum || c == '_'

/-- ASCII model of Python str.lower on a single character: uppercase ASCII
letters map to their lowercase form, every other character is unchanged. -/
def lowerChar : Char → Char
  | 'A' => 'a' | 'B' => 'b' | 'C' => 'c' | 'D' => 'd' | 'E' => 'e'
  | 'F' => 'f' | 'G' => 'g' | 'H' => 'h' | 'I' => 'i' | 'J' => 'j'
  | 'K' => 'k' | 'L' => 'l' | 'M' => 'm' | 'N' => 'n' | 'O' => 'o'
  | 'P' => 'p' | 'Q' => 'q' | 'R' => 'r' | 'S' => 's' | 'T' => 't'
  | 'U' => 'u' | 'V' => 'v' | 'W' => 'w' | 'X' => 'x' | 'Y' => 'y'
  | 'Z' => 'z'
  | c => c

/-- Python str.lower (ASCII model), acting characterwise. -/
def lowerStr (s : String) : String :=
  String.mk (s.data.map lowerChar)

/-- Tokenizer behind re.findall of the pattern of word-character runs: scans
the character list, accumulating the current run of word characters in `buf`
(reversed); a non-word character closes the current run. -/
def tokenize : List Char → List Char → List String
  | [], buf => if buf.isEmpty then [] else [String.mk buf.reverse]
  | c :: cs, buf =>
    if isWordChar c then
      tokenize cs (c :: buf)
    else if buf.isEmpty then
      tokenize cs []
    else
      String.mk buf.reverse :: tokenize cs []

/-- Token set of a string as the scorer computes it:
the set of word-character runs of the lowercased text. -/
def wordSet (s : String) : Finset String :=
  (tokenize (lowerStr s).data []).toFinset

/-- TranslationMemory._calculate_similarity: Jaccard similarity of the two
token sets, plus a 0.3 boost when either argument string is a substring of
the other (checked on the arguments as passed, before the internal
lowercasing), capped at 1.0.  Empty token set on either side returns 0.0
before the substring check. -/
def _calculate_similarity (text1 text2 : String) : ℚ :=
  let words1 := wordSet text1
  let words2 := wordSet text2
  if words1 = ∅ ∨ words2 = ∅ then 0
  else
    let interCard : ℕ := (words1 ∩ words2).card
    let unionCard : ℕ := (words1 ∪ words2).card
    let base : ℚ := if 0 < unionCard then (interCard : ℚ) / (unionCard : ℚ) else 0
    let boosted : ℚ :=
      if text1.data <:+: text2.data ∨ text2.data <:+: text1.data then base + 3 / 10
      else base
    min boosted 1

/-- One row of the translation-memory DataFrame (one CSV record).  The three
optional columns are nullable in the CSV input contract; `none` models a NaN
cell. -/
structure Record where
  source_text : String
  target_language : String
  translation : String
  content_type : Option String
  product_category : Option String
  brand_notes : Option String
deriving DecidableEq

/-- One entry of the list returned by find_similar_translations (the dict
built from a row, with the reported rounded score). -/
structure SimilarEntry where
  source_text : String
  translation : String
  content_type : Option String
  product_category : Option String
  brand_notes : Option String
  similarity_score : ℚ
deriving DecidableEq

/-- Python truthiness of an Optional[str] argument: None and the empty string
are falsy, every other string is truthy. -/
def pyTruthy : Option String → Bool
  | none => false
  | some s => !(s == "")

/-- Content-type boost column: 0.2 if x == content_type else 0, applied only
when the content_type argument is truthy. -/
def ctBoost (content_type : Option String) (r : Record) : ℚ :=
  if pyTruthy content_type then
    if r.content_type = content_type then 1 / 5 else 0
  else 0

/-- Product-category boost column: 0.3 if x == product_category else 0,
applied only when the product_category argument is truthy. -/
def pcBoost (product_category : Option String) (r : Record) : ℚ :=
  if pyTruthy product_category then
    if r.product_category = product_category then 3 / 10 else 0
  else 0

/-- A scored row: the pandas row index (position in the original store), the
record, and its combined similarity score. -/
structure Scored where
  idx : ℕ
  row : Record
  score : ℚ
deriving DecidableEq

/-- Stable descending insertion into a list already sorted by descending
score: on a tie the inserted element (which comes from an earlier row) is
placed before the tied elements. -/
def insertRow (x : Scored) : List Scored → List Scored
  | [] => [x]
  | y :: ys => if y.score ≤ x.score then x :: y :: ys else y :: insertRow x ys

/-- Stable descending sort by score (ties keep first-seen row order). -/
def sortDesc : List Scored → List Scored
  | [] => []
  | x :: xs => insertRow x (sortDesc xs)

/-- pandas DataFrame.nlargest(top_k, column) with the default keep policy:
empty result for top_k <= 0, otherwise the first top_k rows of a stable
descending sort on the column. -/
def nlargest (top_k : ℤ) (l : List Scored) : List Scored :=
  if top_k ≤ 0 then [] else (sortDesc l).take top_k.toNat

/-- Python round(x, 2): rounding to two decimal places.  (Python rounds
half-to-even on binary floats; no value in this development sits on a
half-cent boundary, so ordinary rounding is an exact model here.) -/
def round2 (q : ℚ) : ℚ :=
  (round (q * 100) : ℚ) / 100

/-- Scoring and ranking pipeline of find_similar_translations, before the
rows are converted to output dicts: filter the store by exact target_language
match, score every remaining row (text similarity of the lowercased texts
plus the two metadata boosts), and keep the top_k rows by score. -/
def rankRows (store : List Record) (source_text target_language : String)
    (content_type product_category : Option String) (top_k : ℤ) : List Scored :=
  let filtered := store.enum.filter (fun p => p.2.target_language == target_language)
  if filtered.isEmpty then []
  else
    let scored := filtered.map (fun p =>
      ⟨p.1, p.2,
        _calculate_similarity (lowerStr source_text) (lowerStr p.2.source_text)
          + ctBoost content_type p.2 + pcBoost product_category p.2⟩)
    nlargest top_k scored

/-- Conversion of a ranked row to the returned dict: the reported score is
rounded to two decimal places. -/
def reportEntry (s : Scored) : SimilarEntry :=
  ⟨s.row.source_text, s.row.translation, s.row.content_type,
    s.row.product_category, s.row.brand_notes, round2 s.score⟩

/-- TranslationMemory.find_similar_translations. -/
def find_similar_translations (store : List Record)
    (source_text target_language : String)
    (content_type product_category : Option String) (top_k : ℤ) : List SimilarEntry :=
  (rankRows store source_text target_language content_type product_category top_k).map
    reportEntry

/-- Number of store records whose target_language exactly equals the target language of the query. -/
def matchCount (store : List Record) (target_language : String) : ℕ :=
  (store.filter (fun r => r.target_language == target_language)).length

/-- pandas Series.unique: distinct values in order of first appearance.
The accumulator `seen` holds the values already emitted. -/
def uniqueFirstAux {α : Type} [DecidableEq α] (seen : List α) : List α → List α
  | [] => []
  | x :: xs =>
    if x ∈ seen then uniqueFirstAux seen xs
    else x :: uniqueFirstAux (x :: seen) xs

/-- Distinct values of a list in order of first appearance. -/
def uniqueFirst {α : Type} [DecidableEq α] (l : List α) : List α :=
  uniqueFirstAux [] l

/-- First-seen deduplication as the specification words it: fold over the
list, appending each value not seen before.  Used as the specification-side
description, proved equal to `uniqueFirst` below. -/
def specDedup {α : Type} [DecidableEq α] (l : List α) : List α :=
  l.foldl (fun acc x => if x ∈ acc then acc else acc ++ [x]) []

/-- Record set used by get_brand_guidelines: filter by exact target_language
match; when the product_category argument is truthy, narrow to exact
product_category matches, but keep the narrowing only when it is non-empty. -/
def guidelineRecords (store : List Record) (target_language : String)
    (product_category : Option String) : List Record :=
  let filtered := store.filter (fun r => r.target_language == target_language)
  match product_category with
  | none => filtered
  | some p =>
    if p = "" then filtered
    else
      let product_df := filtered.filter (fun r => r.product_category == some p)
      if 0 < product_df.length then product_df else filtered

/-- TranslationMemory.get_brand_guidelines: non-null brand notes of the
filtered records, deduplicated in first-seen order (Series.dropna().unique()),
truncated to the first ten. -/
def get_brand_guidelines (store : List Record) (target_language : String)
    (product_category : Option String) : List String :=
  (uniqueFirst ((guidelineRecords store target_language product_category).filterMap
    (fun r => r.brand_notes))).take 10

/-- Result shape of TranslationMemory.get_stats.  The distinct-value lists of
the nullable columns live over Option String: the element `none` is the NaN
placeholder that pandas Series.unique keeps as a value. -/
structure Stats where
  total_translations : ℕ
  languages : List String
  content_types : List (Option String)
  product_categories : List (Option String)
deriving DecidableEq

/-- TranslationMemory.get_stats. -/
def get_stats (store : List Record) : Stats :=
  { total_translations := store.length
    languages := uniqueFirst (store.map (fun r => r.target_language))
    content_types := uniqueFirst (store.map (fun r => r.content_type))
    product_categories := uniqueFirst (store.map (fun r => r.product_category)) }

/-- Ordering produced by the ranking engine: strictly larger combined score
first; on score ties, smaller original row index first. -/
def rankedBefore (a b : Scored) : Prop :=
  b.score < a.score ∨ (a.score = b.score ∧ a.idx < b.idx)

/-- Single-record store of scenario 2 of the specification. -/
def recC1 : Record :=
  ⟨"The most powerful device ever", "French", "Le plus puissant appareil jamais",
    none, some "Product A", some "Use formal tone"⟩

/-- Four-record store for the length witness: three French rows, one Spanish. -/
def recC2a : Record := ⟨"alpha one", "French", "t1", none, none, none⟩

def recC2b : Record := ⟨"beta two", "French", "t2", none, none, none⟩

def recC2c : Record := ⟨"gamma three", "French", "t3", none, none, none⟩

def recC2d : Record := ⟨"delta four", "Spanish", "t4", none, none, none⟩

/-- Two-record German store of scenario 3 of the specification. -/
def recC4a : Record := ⟨"s1", "German", "t1", none, some "iPhone", some "Keep it concise"⟩

def recC4b : Record := ⟨"s2", "German", "t2", none, some "iPad", some "Prefer formal address"⟩

/-- Store with an empty-string brand note (representable in a DataFrame,
though the default CSV loader turns empty cells into NaN instead). -/
def recC5 : Record := ⟨"x", "French", "tx", none, none, some ""⟩

/-- Two-record French store for the empty-query witness. -/
def recC9a : Record := ⟨"alpha", "French", "t1", none, none, none⟩

def recC9b : Record := ⟨"beta", "French", "t2", none, none, none⟩

/-- Store with NaN cells for the stats witness. -/
def recC10a : Record := ⟨"a", "French", "t", none, none, none⟩

lemma mem_uniqueFirstAux {α : Type} [DecidableEq α] (a : α) :
    ∀ (l seen : List α), a ∈ uniqueFirstAux seen l ↔ a ∈ l ∧ a ∉ seen := by
  intro l
  induction l with
  | nil => intro seen; simp [uniqueFirstAux]
  | cons x xs ih =>
    intro seen
    by_cases hx : x ∈ seen
    · simp only [uniqueFirstAux, if_pos hx, ih, List.mem_cons]
      constructor
      · exact fun ⟨h1, h2⟩ => ⟨Or.inr h1, h2⟩
      · rintro ⟨h1 | h1, h2⟩
        · exact absurd (h1 ▸ hx) h2
        · exact ⟨h1, h2⟩
    · simp only [uniqueFirstAux, if_neg hx, List.mem_cons, ih]
      constructor
      · rintro (h | ⟨h1, h2⟩)
        · exact ⟨Or.inl h, h ▸ hx⟩
        · exact ⟨Or.inr h1, fun hs => h2 (Or.inr hs)⟩
      · rintro ⟨h1 | h1, h2⟩
        · exact Or.inl h1
        · by_cases hax : a = x
          · exact Or.inl hax
          · exact Or.inr ⟨h1, by simp [List.mem_cons, hax, h2]⟩

lemma nodup_uniqueFirstAux {α : Type} [DecidableEq α] :
    ∀ (l seen : List α), (uniqueFirstAux seen l).Nodup := by
  intro l
  induction l with
  | nil => intro seen; simp [uniqueFirstAux]
  | cons x xs ih =>
    intro seen
    by_cases hx : x ∈ seen
    · simpa only [uniqueFirstAux, if_pos hx] using ih seen
    · simp only [uniqueFirstAux, if_neg hx, List.nodup_cons]
      refine ⟨fun hmem => ?_, ih _⟩
      exact ((mem_uniqueFirstAux x xs (x :: seen)).1 hmem).2 (List.mem_cons_self x seen)

lemma uniqueFirstAux_congr {α : Type} [DecidableEq α] :
    ∀ (l s1 s2 : List α), (∀ a, a ∈ s1 ↔ a ∈ s2) →
      uniqueFirstAux s1 l = uniqueFirstAux s2 l := by
  intro l
  induction l with
  | nil => intro s1 s2 _; rfl
  | cons x xs ih =>
    intro s1 s2 h
    by_cases hx : x ∈ s1
    · rw [uniqueFirstAux, uniqueFirstAux, if_pos hx, if_pos ((h x).1 hx), ih _ _ h]
    · rw [uniqueFirstAux, uniqueFirstAux, if_neg hx, if_neg (fun hc => hx ((h x).2 hc))]
      congr 1
      exact ih _ _ (fun a => by simp [List.mem_cons, h a])

lemma specDedup_aux {α : Type} [DecidableEq α] :
    ∀ (l acc : List α),
      List.foldl (fun acc x => if x ∈ acc then acc else acc ++ [x]) acc l =
        acc ++ uniqueFirstAux acc l := by
  intro l
  induction l with
  | nil => intro acc; simp [uniqueFirstAux]
  | cons x xs ih =>
    intro acc
    by_cases hx : x ∈ acc
    · simp only [List.foldl_cons, if_pos hx, uniqueFirstAux, ih]
    · simp only [List.foldl_cons, if_neg hx, uniqueFirstAux, ih]
      rw [uniqueFirstAux_congr xs (acc ++ [x]) (x :: acc)
        (fun a => by simp [List.mem_append, List.mem_cons, or_comm])]
      simp

/-- Series.unique (first-seen deduplication with an accumulator of seen
values) computes the same list as the fold description in the specification. -/
theorem uniqueFirst_eq_specDedup {α : Type} [DecidableEq α] (l : List α) :
    uniqueFirst l = specDedup l := by
  rw [uniqueFirst, specDedup, specDedup_aux l []]
  simp

lemma mem_uniqueFirst {α : Type} [DecidableEq α] (a : α) (l : List α) :
    a ∈ uniqueFirst l ↔ a ∈ l := by
  rw [uniqueFirst, mem_uniqueFirstAux]
  simp

lemma nodup_uniqueFirst {α : Type} [DecidableEq α] (l : List α) :
    (uniqueFirst l).Nodup :=
  nodup_uniqueFirstAux l []

lemma score_le_of_rankedBefore {a b : Scored} (h : rankedBefore a b) :
    b.score ≤ a.score := by
  rcases h with h | ⟨h, _⟩
  · exact le_of_lt h
  · exact le_of_eq h.symm

lemma mem_insertRow (a x : Scored) :
    ∀ l, a ∈ insertRow x l ↔ a = x ∨ a ∈ l := by
  intro l
  induction l with
  | nil => simp [insertRow]
  | cons y ys ih =>
    by_cases h : y.score ≤ x.score
    · rw [insertRow, if_pos h]
      simp [List.mem_cons]
    · rw [insertRow, if_neg h]
      simp only [List.mem_cons, ih]
      tauto

lemma length_insertRow (x : Scored) :
    ∀ l, (insertRow x l).length = l.length + 1 := by
  intro l
  induction l with
  | nil => rfl
  | cons y ys ih =>
    by_cases h : y.score ≤ x.score
    · rw [insertRow, if_pos h]
      simp
    · rw [insertRow, if_neg h]
      simp [ih]

lemma mem_sortDesc (a : Scored) : ∀ l, a ∈ sortDesc l ↔ a ∈ l := by
  intro l
  induction l with
  | nil => simp [sortDesc]
  | cons x xs ih =>
    rw [sortDesc, mem_insertRow]
    simp [List.mem_cons, ih]

lemma length_sortDesc : ∀ l, (sortDesc l).length = l.length := by
  intro l
  induction l with
  | nil => rfl
  | cons x xs ih =>
    rw [sortDesc, length_insertRow, ih]
    rfl

lemma pairwise_insertRow (x : Scored) :
    ∀ l, l.Pairwise rankedBefore → (∀ y ∈ l, x.idx < y.idx) →
      (insertRow x l).Pairwise rankedBefore := by
  intro l
  induction l with
  | nil => intro _ _; simp [insertRow]
  | cons y ys ih =>
    intro hl hidx
    rw [List.pairwise_cons] at hl
    obtain ⟨hy, hys⟩ := hl
    by_cases hsc : y.score ≤ x.score
    · rw [insertRow, if_pos hsc, List.pairwise_cons]
      refine ⟨?_, List.pairwise_cons.2 ⟨hy, hys⟩⟩
      intro z hz
      rcases List.mem_cons.1 hz with hz | hz
      · subst hz
        rcases lt_or_eq_of_le hsc with h | h
        · exact Or.inl h
        · exact Or.inr ⟨h.symm, hidx _ (List.mem_cons_self _ _)⟩
      · have hzs : z.score ≤ y.score := score_le_of_rankedBefore (hy z hz)
        rcases lt_or_eq_of_le (le_trans hzs hsc) with h | h
        · exact Or.inl h
        · exact Or.inr ⟨h.symm, hidx z (List.mem_cons_of_mem _ hz)⟩
    · rw [insertRow, if_neg hsc, List.pairwise_cons]
      constructor
      · intro z hz
        rcases (mem_insertRow z x ys).1 hz with hz | hz
        · subst hz
          exact Or.inl (lt_of_not_le hsc)
        · exact hy z hz
      · exact ih hys (fun z hz => hidx z (List.mem_cons_of_mem _ hz))

lemma pairwise_sortDesc :
    ∀ l, l.Pairwise (fun a b => a.idx < b.idx) →
      (sortDesc l).Pairwise rankedBefore := by
  intro l
  induction l with
  | nil => intro _; simp [sortDesc]
  | cons x xs ih =>
    intro h
    rw [List.pairwise_cons] at h
    obtain ⟨hx, hxs⟩ := h
    rw [sortDesc]
    exact pairwise_insertRow x (sortDesc xs) (ih hxs)
      (fun y hy => hx y ((mem_sortDesc y xs).1 hy))

lemma sortDesc_const (c : ℚ) :
    ∀ l, (∀ a ∈ l, a.score = c) → sortDesc l = l := by
  intro l
  induction l with
  | nil => intro _; rfl
  | cons x xs ih =>
    intro h
    have hx : x.score = c := h x (List.mem_cons_self _ _)
    have htail : ∀ a ∈ xs, a.score = c := fun a ha => h a (List.mem_cons_of_mem _ ha)
    rw [sortDesc, ih htail]
    cases xs with
    | nil => rfl
    | cons y ys =>
      have hy : y.score = c := htail y (List.mem_cons_self _ _)
      rw [insertRow, if_pos (by rw [hx, hy])]

lemma length_nlargest (k : ℤ) (l : List Scored) :
    (nlargest k l).length = if k ≤ 0 then 0 else min k.toNat l.length := by
  unfold nlargest
  split
  · rfl
  · simp [List.length_take, length_sortDesc]

lemma le_fst_of_mem_enumFrom {α : Type} :
    ∀ (l : List α) (n : ℕ) (p : ℕ × α), p ∈ List.enumFrom n l → n ≤ p.1 := by
  intro l
  induction l with
  | nil => intro n p h; simp [List.enumFrom] at h
  | cons x xs ih =>
    intro n p h
    rcases List.mem_cons.1 h with h | h
    · subst h; exact le_refl n
    · exact le_trans (Nat.le_succ n) (ih (n + 1) p h)

lemma pairwise_fst_lt_enumFrom {α : Type} :
    ∀ (l : List α) (n : ℕ),
      (List.enumFrom n l).Pairwise (fun a b => a.1 < b.1) := by
  intro l
  induction l with
  | nil => intro n; simp [List.enumFrom]
  | cons x xs ih =>
    intro n
    rw [List.enumFrom_cons, List.pairwise_cons]
    exact ⟨fun p hp => lt_of_lt_of_le (Nat.lt_succ_self n) (le_fst_of_mem_enumFrom xs (n + 1) p hp),
      ih (n + 1)⟩

lemma enumFrom_filter_map_snd (pred : Record → Bool) :
    ∀ (l : List Record) (n : ℕ),
      (((List.enumFrom n l).filter (fun p => pred p.2)).map Prod.snd) = l.filter pred := by
  intro l
  induction l with
  | nil => intro n; rfl
  | cons x xs ih =>
    intro n
    rw [List.enumFrom_cons]
    cases hp : pred x
    · simp [List.filter_cons, hp, ih]
    · simp [List.filter_cons, hp, ih]

lemma tokenize_of_no_word :
    ∀ l : List Char, (∀ c ∈ l, isWordChar c = false) → tokenize l [] = [] := by
  intro l
  induction l with
  | nil => intro _; rfl
  | cons c cs ih =>
    intro h
    have hc : isWordChar c = false := h c (List.mem_cons_self _ _)
    simp only [tokenize, hc, Bool.false_eq_true, if_false, List.isEmpty_nil, if_true]
    exact ih (fun d hd => h d (List.mem_cons_of_mem _ hd))

lemma tokenize_ne_nil :
    ∀ (l buf : List Char), buf ≠ [] → tokenize l buf ≠ [] := by
  intro l
  induction l with
  | nil =>
    intro buf h
    simp only [tokenize]
    rw [if_neg (by simpa using h)]
    simp
  | cons c cs ih =>
    intro buf h
    by_cases hc : isWordChar c
    · simp only [tokenize, hc, if_true]
      exact ih (c :: buf) (by simp)
    · simp only [tokenize, hc, Bool.false_eq_true, if_false]
      rw [if_neg (by simpa using h)]
      simp

lemma tokenize_ne_nil_of_word :
    ∀ l : List Char, (∃ c ∈ l, isWordChar c = true) → tokenize l [] ≠ [] := by
  intro l
  induction l with
  | nil => rintro ⟨c, hc, _⟩; simp at hc
  | cons c cs ih =>
    rintro ⟨d, hd, hw⟩
    by_cases hc : isWordChar c
    · simp only [tokenize, hc, if_true]
      exact tokenize_ne_nil cs [c] (by simp)
    · rcases List.mem_cons.1 hd with rfl | hd
      · rw [hw] at hc
        exact absurd rfl hc
      · simp only [tokenize, hc, Bool.false_eq_true, if_false, List.isEmpty_nil, if_true]
        exact ih ⟨d, hd, hw⟩

lemma tokenize_eq_nil_iff (l : List Char) :
    tokenize l [] = [] ↔ ∀ c ∈ l, isWordChar c = false := by
  constructor
  · intro h c hc
    by_contra hw
    exact tokenize_ne_nil_of_word l ⟨c, hc, by simpa using hw⟩ h
  · exact tokenize_of_no_word l

lemma wordSet_eq_empty_iff (s : String) :
    wordSet s = ∅ ↔ ∀ c ∈ (lowerStr s).data, isWordChar c = false := by
  rw [wordSet, List.toFinset_eq_empty_iff, tokenize_eq_nil_iff]

lemma lowerChar_of_not_word {c : Char} (h : isWordChar c = false) : lowerChar c = c := by
  unfold lowerChar
  split
  all_goals (try rfl)
  all_goals (subst_vars; exact absurd h (by decide))

lemma wordSet_lowerStr {s : String} (h : wordSet s = ∅) : wordSet (lowerStr s) = ∅ := by
  rw [wordSet_eq_empty_iff] at h ⊢
  intro c hc
  have hdata : (lowerStr (lowerStr s)).data = ((lowerStr s).data).map lowerChar := rfl
  rw [hdata] at hc
  obtain ⟨d, hd, rfl⟩ := List.mem_map.1 hc
  rw [lowerChar_of_not_word (h d hd)]
  exact h d hd

lemma similarity_empty_left {q : String} (h : wordSet q = ∅) (t : String) :
    _calculate_similarity q t = 0 := by
  simp only [_calculate_similarity]
  rw [if_pos (Or.inl h)]

lemma similarity_self_aux (a : String) (h : wordSet a ≠ ∅) :
    _calculate_similarity a a = 1 := by
  have hcard : 0 < (wordSet a).card :=
    Finset.card_pos.2 (Finset.nonempty_iff_ne_empty.2 h)
  have hsub : a.data <:+: a.data ∨ a.data <:+: a.data := Or.inl ⟨[], [], by simp⟩
  simp only [_calculate_similarity]
  rw [if_neg (by simp [h]), Finset.inter_self, Finset.union_self, if_pos hsub, if_pos hcard,
    div_self (by exact_mod_cast Nat.pos_iff_ne_zero.1 hcard), min_eq_right (by norm_num)]

lemma length_filter_enum (store : List Record) (tl : String) :
    ((store.enum.filter (fun p => p.2.target_language == tl))).length = matchCount store tl := by
  have h := enumFrom_filter_map_snd (fun r => r.target_language == tl) store 0
  rw [matchCount, ← h, List.length_map]
  rfl

lemma length_rankRows (store : List Record) (q tl : String)
    (ct pc : Option String) (k : ℤ) :
    (rankRows store q tl ct pc k).length =
      if k ≤ 0 then 0 else min k.toNat (matchCount store tl) := by
  simp only [rankRows]
  by_cases he : (store.enum.filter (fun p => p.2.target_language == tl)).isEmpty
  · rw [if_pos he]
    have h0 : matchCount store tl = 0 := by
      rw [← length_filter_enum store tl, List.isEmpty_iff.1 he]
      rfl
    simp [h0]
  · rw [if_neg he, length_nlargest, List.length_map, length_filter_enum]

/-- C2: rank never returns more than top_k candidates; for positive top_k the
output length is the minimum of top_k and the number of records whose
target_language matches exactly; for top_k at most 0 the result is the empty
list, returned as an ordinary value. -/
theorem rank_length_spec (store : List Record) (q tl : String)
    (ct pc : Option String) (k : ℤ) :
    (find_similar_translations store q tl ct pc k).length ≤ k.toNat
  ∧ (0 < k →
      (find_similar_translations store q tl ct pc k).length =
        min k.toNat (matchCount store tl))
  ∧ (k ≤ 0 → find_similar_translations store q tl ct pc k = []) := by
  have hlen : (find_similar_translations store q tl ct pc k).length =
      if k ≤ 0 then 0 else min k.toNat (matchCount store tl) := by
    rw [find_similar_translations, List.length_map, length_rankRows]
  refine ⟨?_, fun hk => ?_, fun hk => ?_⟩
  · rw [hlen]
    split
    · exact Nat.zero_le _
    · exact min_le_left _ _
  · rw [hlen, if_neg (by omega)]
  · have h0 : (find_similar_translations store q tl ct pc k).length = 0 := by
      rw [hlen, if_pos hk]
    exact List.length_eq_zero.1 h0

/-- C3: the ranked rows are pairwise ordered by strictly descending combined
(unrounded) score, with score ties in ascending original row order
(first-seen wins); the reported list is exactly their per-row dict
conversion. -/
theorem rank_sorted_stable (store : List Record) (q tl : String)
    (ct pc : Option String) (k : ℤ) :
    find_similar_translations store q tl ct pc k =
      (rankRows store q tl ct pc k).map reportEntry
  ∧ (rankRows store q tl ct pc k).Pairwise rankedBefore := by
  refine ⟨rfl, ?_⟩
  simp only [rankRows]
  by_cases he : (store.enum.filter (fun p => p.2.target_language == tl)).isEmpty
  · rw [if_pos he]
    exact List.Pairwise.nil
  · rw [if_neg he]
    unfold nlargest
    split
    · exact List.Pairwise.nil
    · apply List.Pairwise.sublist (List.take_sublist _ _)
      apply pairwise_sortDesc
      rw [List.pairwise_map]
      exact List.Pairwise.filter _ (pairwise_fst_lt_enumFrom store 0)

lemma round2_zero : round2 0 = 0 := by
  simp [round2]

/-- C9: when the query text tokenizes to the empty set and no metadata
filters are supplied, every candidate of a non-empty matching-language store
scores 0.0 (the substring boost is never reached), and rank still returns the
first min(top_k, match-count) matching records in original store order, a
non-empty list. -/
theorem rank_empty_query (store : List Record) (q tl : String) (k : ℤ)
    (hq : wordSet q = ∅) (hne : matchCount store tl ≠ 0) (hk : 0 < k) :
    (∀ e ∈ find_similar_translations store q tl none none k, e.similarity_score = 0)
  ∧ find_similar_translations store q tl none none k =
      ((store.filter (fun r => r.target_language == tl)).take k.toNat).map
        (fun r => ⟨r.source_text, r.translation, r.content_type,
          r.product_category, r.brand_notes, 0⟩)
  ∧ find_similar_translations store q tl none none k ≠ [] := by
  have hz : ∀ r : Record,
      _calculate_similarity (lowerStr q) (lowerStr r.source_text)
        + ctBoost none r + pcBoost none r = 0 := by
    intro r
    rw [similarity_empty_left (wordSet_lowerStr hq)]
    simp [ctBoost, pcBoost, pyTruthy]
  have hfe : ¬ ((store.enum.filter (fun p => p.2.target_language == tl)).isEmpty = true) := by
    intro hcon
    have hl := length_filter_enum store tl
    rw [List.isEmpty_iff.1 hcon] at hl
    exact hne (by simpa using hl.symm)
  have hall : ∀ a ∈ (store.enum.filter (fun p => p.2.target_language == tl)).map
      (fun p => (⟨p.1, p.2,
        _calculate_similarity (lowerStr q) (lowerStr p.2.source_text)
          + ctBoost none p.2 + pcBoost none p.2⟩ : Scored)), a.score = 0 := by
    intro a ha
    obtain ⟨p, _, rfl⟩ := List.mem_map.1 ha
    exact hz p.2
  have hmain : find_similar_translations store q tl none none k =
      ((store.filter (fun r => r.target_language == tl)).take k.toNat).map
        (fun r => ⟨r.source_text, r.translation, r.content_type,
          r.product_category, r.brand_notes, 0⟩) := by
    rw [find_similar_translations]
    simp only [rankRows]
    rw [if_neg hfe, nlargest, if_neg (by omega), sortDesc_const 0 _ hall,
      ← List.map_take, List.map_map]
    rw [show (store.filter (fun r => r.target_language == tl)).take k.toNat =
        ((store.enum.filter (fun p => p.2.target_language == tl)).take k.toNat).map
          Prod.snd from by
      rw [← enumFrom_filter_map_snd (fun r => r.target_language == tl) store 0,
        ← List.map_take]
      rfl]
    rw [List.map_map]
    apply List.map_congr_left
    intro p _
    simp only [Function.comp_apply, reportEntry]
    rw [hz p.2, round2_zero]
  refine ⟨?_, hmain, ?_⟩
  · rw [hmain]
    intro e he
    obtain ⟨r, _, rfl⟩ := List.mem_map.1 he
    rfl
  · intro hcon
    have hlen : (find_similar_translations store q tl none none k).length =
        min k.toNat (matchCount store tl) := by
      rw [find_similar_translations, List.length_map, length_rankRows, if_neg (by omega)]
    rw [hcon] at hlen
    simp only [List.length_nil] at hlen
    rcases Nat.min_eq_zero_iff.1 hlen.symm with h | h
    · omega
    · exact hne h

/-- C6 (amended): for every string whose token set is non-empty, the
similarity scorer gives a string score 1.0 against itself: the Jaccard base
is 1.0, the self-substring boost raises it to 1.3, and the cap clamps the
result back to 1.0. -/
theorem similarity_self (a : String) (h : wordSet a ≠ ∅) :
    _calculate_similarity a a = 1 :=
  similarity_self_aux a h

/-- C6 counterexample: the empty string tokenizes to the empty set, so the
scorer returns 0.0 against itself, not 1.0: the claim fails for strings
without word characters. -/
theorem similarity_self_empty_not_one :
    _calculate_similarity "" "" = 0 ∧ _calculate_similarity "" "" ≠ 1 := by
  constructor
  · decide
  · rw [show _calculate_similarity "" "" = 0 from by decide]
    norm_num

/-- C6 witness: a concrete non-empty string scores 1.0 against itself. -/
theorem similarity_self_witness :
    wordSet "hello" ≠ ∅ ∧ _calculate_similarity "hello" "hello" = 1 :=
  ⟨by decide, similarity_self "hello" (by decide)⟩

/-- C7: the similarity scorer is symmetric in its two arguments: the token
sets, the Jaccard base, and the two-sided substring test are all symmetric. -/
theorem similarity_symm (a b : String) :
    _calculate_similarity a b = _calculate_similarity b a := by
  simp only [_calculate_similarity]
  rw [Finset.inter_comm, Finset.union_comm]
  by_cases h1 : wordSet a = ∅ <;> by_cases h2 : wordSet b = ∅ <;>
    by_cases h3 : a.data <:+: b.data <;> by_cases h4 : b.data <:+: a.data <;>
      simp [h1, h2, h3, h4]

/-- C8: the similarity score always lies in the closed interval from 0.0 to
1.0: the Jaccard base is non-negative, the boost only adds, and the final
result is capped at 1.0. -/
theorem similarity_bounds (a b : String) :
    0 ≤ _calculate_similarity a b ∧ _calculate_similarity a b ≤ 1 := by
  simp only [_calculate_similarity]
  by_cases h : wordSet a = ∅ ∨ wordSet b = ∅
  · rw [if_pos h]
    norm_num
  · rw [if_neg h]
    have hbase : (0:ℚ) ≤
        if 0 < (wordSet a ∪ wordSet b).card then
          ((wordSet a ∩ wordSet b).card : ℚ) / ((wordSet a ∪ wordSet b).card : ℚ)
        else 0 := by
      split
      · positivity
      · exact le_refl 0
    refine ⟨le_min ?_ zero_le_one, min_le_right _ _⟩
    split
    · exact add_nonneg hbase (by norm_num)
    · exact hbase

/-- C4: when the supplied product_category matches no record of the
language-filtered set, get_brand_guidelines falls back to the language-only
filtered set: the result equals the one with no product filter, so a
non-matching product filter never empties a non-empty guideline result. -/
theorem guidelines_product_fallback (store : List Record) (tl p : String)
    (h : ∀ r ∈ store.filter (fun r => r.target_language == tl),
      r.product_category ≠ some p) :
    get_brand_guidelines store tl (some p) = get_brand_guidelines store tl none
  ∧ (get_brand_guidelines store tl none ≠ [] →
      get_brand_guidelines store tl (some p) ≠ []) := by
  have hrec : guidelineRecords store tl (some p) = guidelineRecords store tl none := by
    simp only [guidelineRecords]
    by_cases hp : p = ""
    · rw [if_pos hp]
    · rw [if_neg hp]
      have hfil : (store.filter (fun r => r.target_language == tl)).filter
          (fun r => r.product_category == some p) = [] := by
        rw [List.filter_eq_nil_iff]
        intro r hr
        simp only [beq_iff_eq]
        exact h r hr
      rw [hfil]
      simp
  have hmain : get_brand_guidelines store tl (some p) =
      get_brand_guidelines store tl none := by
    rw [get_brand_guidelines, get_brand_guidelines, hrec]
  exact ⟨hmain, fun hne => hmain ▸ hne⟩

/-- C5 (amended): the guideline list is the first ten entries of the
first-seen deduplication of the non-null brand notes of the filtered records
(absent notes are dropped; an empty-string note, which cannot arise from the
CSV loader, would be kept); it has no duplicates and length at most ten. -/
theorem guidelines_shape (store : List Record) (tl : String)
    (pc : Option String) :
    (get_brand_guidelines store tl pc).Nodup
  ∧ (get_brand_guidelines store tl pc).length ≤ 10
  ∧ get_brand_guidelines store tl pc =
      (specDedup ((guidelineRecords store tl pc).filterMap
        (fun r => r.brand_notes))).take 10 := by
  refine ⟨?_, ?_, ?_⟩
  · exact (nodup_uniqueFirst _).sublist (List.take_sublist _ _)
  · rw [get_brand_guidelines, List.length_take]
    exact min_le_left _ _
  · rw [get_brand_guidelines, uniqueFirst_eq_specDedup]

/-- C10: get_stats reports the store size and, for each of the three columns,
the distinct values in first-seen order; the NaN placeholder of an absent
content_type or product_category cell is itself an element of the
corresponding list, so those lists are lists over Option String rather than
plain strings. -/
theorem stats_spec (store : List Record) :
    (get_stats store).total_translations = store.length
  ∧ (get_stats store).languages = specDedup (store.map (fun r => r.target_language))
  ∧ (get_stats store).content_types = specDedup (store.map (fun r => r.content_type))
  ∧ (get_stats store).product_categories =
      specDedup (store.map (fun r => r.product_category))
  ∧ (∀ r ∈ store, r.content_type = none →
      none ∈ (get_stats store).content_types)
  ∧ (∀ r ∈ store, r.product_category = none →
      none ∈ (get_stats store).product_categories) := by
  refine ⟨rfl, uniqueFirst_eq_specDedup _, uniqueFirst_eq_specDedup _,
    uniqueFirst_eq_specDedup _, ?_, ?_⟩
  · intro r hr hc
    exact (mem_uniqueFirst _ _).2 (List.mem_map.2 ⟨r, hr, hc⟩)
  · intro r hr hc
    exact (mem_uniqueFirst _ _).2 (List.mem_map.2 ⟨r, hr, hc⟩)

lemma rank_C1_eval :
    find_similar_translations [recC1] "The most powerful device ever" "French"
      none (some "Product A") 3 =
    [⟨"The most powerful device ever", "Le plus puissant appareil jamais",
      none, some "Product A", some "Use formal tone", 13 / 10⟩] := by
  have hsc : _calculate_similarity (lowerStr "The most powerful device ever")
      (lowerStr "The most powerful device ever")
      + ctBoost none recC1 + pcBoost (some "Product A") recC1 = 13 / 10 := by
    rw [similarity_self_aux _ (by decide),
      show ctBoost none recC1 = 0 from rfl,
      show pcBoost (some "Product A") recC1 = 3 / 10 from rfl]
    norm_num
  have hround : round2 ((13 : ℚ) / 10) = 13 / 10 := by
    rw [round2]
    norm_num [round_eq]
  have h1 : find_similar_translations [recC1] "The most powerful device ever" "French"
      none (some "Product A") 3 =
      [⟨"The most powerful device ever", "Le plus puissant appareil jamais",
        none, some "Product A", some "Use formal tone",
        round2 (_calculate_similarity (lowerStr "The most powerful device ever")
          (lowerStr "The most powerful device ever")
          + ctBoost none recC1 + pcBoost (some "Product A") recC1)⟩] := rfl
  rw [h1, hsc, hround]

/-- C1 (amended): against the one-record scenario-2 store, rank returns
exactly one candidate and its reported similarity_score is 1.3 (the scorer
caps its own result at 1.0, but the 0.3 product boost is added afterwards and
is not re-capped before reporting), and guidelines returns the single brand
note. -/
theorem rank_scenario2_reported :
    find_similar_translations [recC1] "The most powerful device ever" "French"
      none (some "Product A") 3 =
    [⟨"The most powerful device ever", "Le plus puissant appareil jamais",
      none, some "Product A", some "Use formal tone", 13 / 10⟩]
  ∧ get_brand_guidelines [recC1] "French" (some "Product A") = ["Use formal tone"] :=
  ⟨rank_C1_eval, by decide⟩

/-- C1 counterexample: the reported score of the single candidate is 1.3, not 1.0
as the claim states. -/
theorem rank_scenario2_score_not_one :
    (find_similar_translations [recC1] "The most powerful device ever" "French"
      none (some "Product A") 3).map (fun e => e.similarity_score) = [13 / 10]
  ∧ ((13 : ℚ) / 10) ≠ 1 := by
  constructor
  · rw [rank_C1_eval]
    rfl
  · norm_num

/-- C2 witness at a concrete store: top_k 2 against three matching records,
and a negative top_k. -/
theorem rank_length_spec_witness :
    ((0 : ℤ) < 2 ∧
      (find_similar_translations [recC2a, recC2b, recC2c, recC2d] "alpha" "French"
        none none 2).length =
        min (Int.toNat 2) (matchCount [recC2a, recC2b, recC2c, recC2d] "French"))
  ∧ ((-1 : ℤ) ≤ 0 ∧
      find_similar_translations [recC2a, recC2b, recC2c, recC2d] "alpha" "French"
        none none (-1) = []) :=
  ⟨⟨by norm_num,
    (rank_length_spec [recC2a, recC2b, recC2c, recC2d] "alpha" "French"
      none none 2).2.1 (by norm_num)⟩,
   ⟨by norm_num,
    (rank_length_spec [recC2a, recC2b, recC2c, recC2d] "alpha" "French"
      none none (-1)).2.2 (by norm_num)⟩⟩

/-- C4 witness: a product category matching no German record falls back to
the language-only guideline list, which keeps both notes. -/
theorem guidelines_product_fallback_witness :
    (∀ r ∈ ([recC4a, recC4b] : List Record).filter
        (fun r => r.target_language == "German"),
      r.product_category ≠ some "Watch")
  ∧ get_brand_guidelines [recC4a, recC4b] "German" (some "Watch") =
      get_brand_guidelines [recC4a, recC4b] "German" none
  ∧ get_brand_guidelines [recC4a, recC4b] "German" (some "Watch") =
      ["Keep it concise", "Prefer formal address"] :=
  ⟨by decide,
   (guidelines_product_fallback [recC4a, recC4b] "German" "Watch" (by decide)).1,
   by decide⟩

/-- C5 counterexample: dropna only removes NaN entries, so an empty-string
brand note is kept and returned, contradicting the drop of empty entries. -/
theorem guidelines_keeps_empty_note :
    get_brand_guidelines [recC5] "French" none = [""]
  ∧ "" ∈ get_brand_guidelines [recC5] "French" none := by
  constructor <;> decide

/-- C9 witness: the empty query against two French records returns both
records in store order, each reported with score 0. -/
theorem rank_empty_query_witness :
    (wordSet "" = ∅ ∧ matchCount [recC9a, recC9b] "French" ≠ 0 ∧ (0 : ℤ) < 3)
  ∧ find_similar_translations [recC9a, recC9b] "" "French" none none 3 =
      ((([recC9a, recC9b] : List Record).filter
        (fun r => r.target_language == "French")).take (Int.toNat 3)).map
        (fun r => ⟨r.source_text, r.translation, r.content_type,
          r.product_category, r.brand_notes, 0⟩) :=
  ⟨⟨by decide, by decide, by norm_num⟩,
    (rank_empty_query [recC9a, recC9b] "" "French" 3 (by decide) (by decide)
      (by norm_num)).2.1⟩

/-- C10 witness: a record with an absent content_type puts the NaN
placeholder itself into the distinct content_types list. -/
theorem stats_spec_witness :
    recC10a ∈ ([recC10a] : List Record) ∧ recC10a.content_type = none
  ∧ none ∈ (get_stats [recC10a]).content_types :=
  ⟨List.mem_cons_self _ _, rfl,
    (stats_spec [recC10a]).2.2.2.2.1 recC10a (List.mem_cons_self _ _) rfl⟩
